import Mathlib

/-
Verification of the geometric core of DogFaceNet's landmarks dataset
pre-processing (src/landmarks/dataset.py): the constrained least-squares
similarity-transform solver `solve`, the mask rasterizer inside
`compute_masks`, the batch drivers, and the landmark rescaling performed by
`resize_dataset` / `re_resize_dataset`.

Numbers are modelled by exact rationals; numpy's float arrays become
functions into ℚ, and the exception raised by `np.linalg.inv` on an exactly
singular matrix is modelled by an explicit error value.
-/

open Matrix

/-- A landmark point as parsed from the region_shape_attributes column of the
annotation csv: an x pixel coordinate cx and a y pixel coordinate cy. -/
@[ext]
structure Pt where
  cx : ℚ
  cy : ℚ
deriving DecidableEq

/-- Failure outcomes of the numerical routines. The reference code only ever
produces numpy's LinAlgError (raised by np.linalg.inv on a singular matrix);
degenerateGeometryError is the error named by the specification, which the
code never defines nor raises, and is present here only so that statements
about it can be written down. -/
inductive GeomError where
  | linAlgError
  | degenerateGeometryError
deriving DecidableEq

/-- The 8-row, 4-column coefficient matrix A_c assembled by `solve`
(dataset.py lines 160-172).  Unknown vector is u = (a, b, tx, ty).
Rows 0-3 come from `A` (line 160) built on P6 = dictionary[5+n] and
P7 = dictionary[6+n]; rows 4-5 are the midpoint rows appended at line 166
from (P1+P5) and (P2+P4); rows 6-7 are the level-pair rows appended at
line 171 from (P1-P5) and (P2-P4). -/
def Amat (d : ℕ → Pt) (n : ℕ) : Matrix (Fin 8) (Fin 4) ℚ :=
  Matrix.of
    ![![(d (5+n)).cx, -(d (5+n)).cy, 1, 0],
      ![(d (5+n)).cy, (d (5+n)).cx, 0, 1],
      ![(d (6+n)).cx, -(d (6+n)).cy, 1, 0],
      ![(d (6+n)).cy, (d (6+n)).cx, 0, 1],
      ![(d (0+n)).cx + (d (4+n)).cx, -((d (0+n)).cy + (d (4+n)).cy), 2, 0],
      ![(d (1+n)).cx + (d (3+n)).cx, -((d (1+n)).cy + (d (3+n)).cy), 2, 0],
      ![(d (0+n)).cy - (d (4+n)).cy, (d (0+n)).cx - (d (4+n)).cx, 0, 0],
      ![(d (1+n)).cy - (d (3+n)).cy, (d (1+n)).cx - (d (3+n)).cx, 0, 0]]

/-- The right-hand side b_c assembled by `solve` (lines 161, 167, 172):
b = [1/2, 1, 1/2, 0] then appended [1, 1] and [0, 0]. -/
def bvec : Fin 8 → ℚ := ![1/2, 1, 1/2, 0, 1, 1, 0, 0]

/-- The normal-equations matrix A_cᵀ · A_c of line 174. -/
def Nmat (d : ℕ → Pt) (n : ℕ) : Matrix (Fin 4) (Fin 4) ℚ :=
  (Amat d n)ᵀ * Amat d n

/-- The vector A_cᵀ · b_c of line 174. -/
def ATb (d : ℕ → Pt) (n : ℕ) : Fin 4 → ℚ :=
  (Amat d n)ᵀ.mulVec bvec

/-- Exact model of np.linalg.inv on a square rational matrix (adjugate over
determinant); meaningful only when the determinant is nonzero, which is
exactly the situation in which np.linalg.inv returns instead of raising. -/
def matInv {k : ℕ} (M : Matrix (Fin k) (Fin k) ℚ) : Matrix (Fin k) (Fin k) ℚ :=
  M.det⁻¹ • M.adjugate

/-- The solution vector sol = inv(A_cᵀ·A_c) · (A_cᵀ·b_c) of line 174. -/
def solCoeffs (d : ℕ → Pt) (n : ℕ) : Fin 4 → ℚ :=
  (matInv (Nmat d n)).mulVec (ATb d n)

/-- Reassembly of u = (a, b, tx, ty) into the 3x3 similarity matrix
[[a, -b, tx], [b, a, ty], [0, 0, 1]] performed at line 176. -/
def toMat (u : Fin 4 → ℚ) : Matrix (Fin 3) (Fin 3) ℚ :=
  Matrix.of ![![u 0, -(u 1), u 2], ![u 1, u 0, u 3], ![0, 0, 1]]

/-- The function `solve(dictionary, n)` of dataset.py lines 133-176.
np.linalg.inv raises LinAlgError exactly when its argument is singular;
otherwise the least-squares coefficients are assembled into the 3x3 matrix. -/
def solve (d : ℕ → Pt) (n : ℕ) : Except GeomError (Matrix (Fin 3) (Fin 3) ℚ) :=
  if (Nmat d n).det = 0 then .error .linAlgError
  else .ok (toMat (solCoeffs d n))

/-- Application of the assembled transform to a point in homogeneous
coordinates: the image of (p.cx, p.cy, 1) under toMat u. -/
def fwd (u : Fin 4 → ℚ) (p : Pt) : Fin 3 → ℚ :=
  (toMat u).mulVec ![p.cx, p.cy, 1]

/-- Midpoint of two landmark points. -/
def midPt (p q : Pt) : Pt :=
  ⟨(p.cx + q.cx) / 2, (p.cy + q.cy) / 2⟩

/-- P = np.linalg.inv(M) computed at line 202 of compute_masks. -/
def Pmat (M : Matrix (Fin 3) (Fin 3) ℚ) : Matrix (Fin 3) (Fin 3) ℚ :=
  matInv M

/-- A = P.dot([0,0,1]) of line 203. -/
def cornerA (M : Matrix (Fin 3) (Fin 3) ℚ) : Fin 3 → ℚ :=
  (Pmat M).mulVec ![0, 0, 1]

/-- B = P.dot([1,0,1]) of line 204. -/
def cornerB (M : Matrix (Fin 3) (Fin 3) ℚ) : Fin 3 → ℚ :=
  (Pmat M).mulVec ![1, 0, 1]

/-- D = P.dot([0,1,1]) of line 205. -/
def cornerD (M : Matrix (Fin 3) (Fin 3) ℚ) : Fin 3 → ℚ :=
  (Pmat M).mulVec ![0, 1, 1]

/-- n_ab = np.linalg.norm(AB)**2 of line 210, where AB = (B[0]-A[0], B[1]-A[1])
(line 207); in exact arithmetic the squared Euclidean norm is the sum of the
squared components. -/
def nAB (M : Matrix (Fin 3) (Fin 3) ℚ) : ℚ :=
  (cornerB M 0 - cornerA M 0) ^ 2 + (cornerB M 1 - cornerA M 1) ^ 2

/-- n_ad = np.linalg.norm(AD)**2 of line 211, AD = (D[0]-A[0], D[1]-A[1]). -/
def nAD (M : Matrix (Fin 3) (Fin 3) ℚ) : ℚ :=
  (cornerD M 0 - cornerA M 0) ^ 2 + (cornerD M 1 - cornerA M 1) ^ 2

/-- dot1 = AX.T.dot(AB)/n_ab of line 219, for the pixel at row i, column j,
with AX = (j - A[0], i - A[1]) (line 218). -/
def dotOne (M : Matrix (Fin 3) (Fin 3) ℚ) (i j : ℕ) : ℚ :=
  (((j : ℚ) - cornerA M 0) * (cornerB M 0 - cornerA M 0)
    + ((i : ℚ) - cornerA M 1) * (cornerB M 1 - cornerA M 1)) / nAB M

/-- dot2 = AX.T.dot(AD)/n_ad of line 220. -/
def dotTwo (M : Matrix (Fin 3) (Fin 3) ℚ) (i j : ℕ) : ℚ :=
  (((j : ℚ) - cornerA M 0) * (cornerD M 0 - cornerA M 0)
    + ((i : ℚ) - cornerA M 1) * (cornerD M 1 - cornerA M 1)) / nAD M

/-- The mask array built by the double pixel loop of lines 214-222: it starts
as np.zeros((h, w)) and position (i, j) is set to 1.0 exactly when
dot1 >= 0 and dot1 <= 1 and dot2 >= 0 and dot2 <= 1.  Positions outside the
h x w grid do not exist in the numpy array and are modelled as 0. -/
def maskFun (M : Matrix (Fin 3) (Fin 3) ℚ) (h w : ℕ) : ℕ → ℕ → ℚ := fun i j =>
  if i < h ∧ j < w then
    if 0 ≤ dotOne M i j ∧ dotOne M i j ≤ 1 ∧ 0 ≤ dotTwo M i j ∧ dotTwo M i j ≤ 1
    then 1 else 0
  else 0

/-- The per-image rasterization step of compute_masks (lines 202-222): invert
the transform (np.linalg.inv raises LinAlgError on a singular input, with no
explicit determinant or edge-norm guard anywhere in the code) and fill the
mask. -/
def rasterize (M : Matrix (Fin 3) (Fin 3) ℚ) (h w : ℕ) :
    Except GeomError (ℕ → ℕ → ℚ) :=
  if M.det = 0 then .error .linAlgError
  else .ok (maskFun M h w)

/-- Shape information of an image as read by sk.io.imread: the number of axes
of the array and its first two dimensions. -/
structure ImgInfo where
  ndim : ℕ
  hgt : ℕ
  wdt : ℕ
deriving DecidableEq

/-- The batch loop of compute_masks (lines 197-224): for i in
range(len(filenames)//7), with n = i*7, the image filenames[n] is read and,
only if len(image.shape) > 2, the solver and the rasterizer run and the mask
is written under filenames[n]; the driver output is the list of
(record index, mask result) pairs actually produced. -/
def computeMasksDriver (d : ℕ → Pt) (imgs : ℕ → ImgInfo) (numRecords : ℕ) :
    List (ℕ × Except GeomError (ℕ → ℕ → ℚ)) :=
  (List.range (numRecords / 7)).filterMap fun i =>
    let n := i * 7
    if 2 < (imgs n).ndim then
      some (n, (solve d n).bind fun M => rasterize M (imgs n).hgt (imgs n).wdt)
    else none

/-- Landmark rescaling of resize_dataset (lines 54-63): with the image of
shape (x, y) resized to (h, w), a = h/x and b = w/y, and each landmark
becomes [cx * b, cy * a]. -/
def resizeLandmark (h w x y : ℚ) (p : Pt) : Pt :=
  ⟨p.cx * (w / y), p.cy * (h / x)⟩

/-- Landmark rescaling of re_resize_dataset (lines 82-86): with the image of
shape (x, y) resized to (h, w), a = h/x and b = w/y, and each label row
[l0, l1] becomes [l0 * a, l1 * b]. -/
def reResizeLandmark (h w x y : ℚ) (p : Pt) : Pt :=
  ⟨p.cx * (h / x), p.cy * (w / y)⟩

/-- The group start indices iterated by resize_dataset (line 46):
range(0, len(filenames) - 7, 7), i.e. the multiples of 7 strictly below
len(filenames) - 7 (empty when that bound is not positive). -/
def resizeIndices (numRecords : ℕ) : List ℕ :=
  (List.range ((numRecords - 7 + 6) / 7)).map (· * 7)

/-- Rotation of a point by the angle with cosine c and sine s about the
center (ccx, ccy). -/
def rotPt (c s ccx ccy : ℚ) (p : Pt) : Pt :=
  ⟨c * (p.cx - ccx) - s * (p.cy - ccy) + ccx,
   s * (p.cx - ccx) + c * (p.cy - ccy) + ccy⟩

/-- Rotation applied to every point of an annotation dictionary. -/
def rotD (c s ccx ccy : ℚ) (d : ℕ → Pt) : ℕ → Pt :=
  fun k => rotPt c s ccx ccy (d k)

/-- The linear change of the parameter vector u = (a, b, tx, ty) induced by
pre-composing the similarity transform with the rotation (c, s) about
(ccx, ccy): row k of this matrix lists the coefficients of the k-th parameter
of the composite transform. -/
def Gmat (c s ccx ccy : ℚ) : Matrix (Fin 4) (Fin 4) ℚ :=
  Matrix.of
    ![![c, -s, 0, 0],
      ![s, c, 0, 0],
      ![(1 - c) * ccx + s * ccy, -(-s * ccx + (1 - c) * ccy), 1, 0],
      ![-s * ccx + (1 - c) * ccy, (1 - c) * ccx + s * ccy, 0, 1]]

/-- A concrete non-degenerate annotation dictionary used as a witness input:
P1 = (0,2), P2 = (1,2), P3 = (2,4), P4 = (3,2), P5 = (4,2), P6 = (2,3),
P7 = (2,1). -/
def dEx : ℕ → Pt := fun k =>
  if k = 0 then ⟨0, 2⟩ else if k = 1 then ⟨1, 2⟩ else if k = 2 then ⟨2, 4⟩
  else if k = 3 then ⟨3, 2⟩ else if k = 4 then ⟨4, 2⟩ else if k = 5 then ⟨2, 3⟩
  else ⟨2, 1⟩

/-- A dictionary whose first three landmark points coincide (P1 = P2 = P3 =
(0,0)) while P6 = (1,2) and P7 = (1,0) stay distinct. -/
def dDup : ℕ → Pt := fun k =>
  if k ≤ 2 then ⟨0, 0⟩ else if k = 3 then ⟨1, 3⟩ else if k = 4 then ⟨2, 1⟩
  else if k = 5 then ⟨1, 2⟩ else ⟨1, 0⟩

/-- The fully degenerate dictionary: all seven points at the origin. -/
def dZero : ℕ → Pt := fun _ => ⟨0, 0⟩

/-- A dictionary with P1 = (1, 0) and every other point at the origin. -/
def dC3 : ℕ → Pt := fun k => if k = 0 then ⟨1, 0⟩ else ⟨0, 0⟩

/-- The identity parameter vector (a, b, tx, ty) = (1, 0, 0, 0). -/
def uId : Fin 4 → ℚ := ![1, 0, 0, 0]

/-- A singular 3x3 transform (zero bottom-right pivot). -/
def Msing : Matrix (Fin 3) (Fin 3) ℚ :=
  Matrix.of ![![1, 0, 0], ![0, 1, 0], ![0, 0, 0]]

/-- An invertible 3x3 transform whose determinant is tiny but nonzero. -/
def Mtiny : Matrix (Fin 3) (Fin 3) ℚ :=
  Matrix.of ![![1 / 1000000, 0, 0], ![0, 1, 0], ![0, 0, 1]]

/-- Image shapes for a batch in which every image is a two-dimensional
(grayscale) array. -/
def imgsGray : ℕ → ImgInfo := fun _ => ⟨2, 5, 5⟩

/-
General helper lemmas.
-/

theorem cons_val_five {α : Type} {m : ℕ} (x : α) (u : Fin (m + 5) → α) :
    vecCons x u 5 = vecHead (vecTail (vecTail (vecTail (vecTail u)))) := rfl

theorem cons_val_six {α : Type} {m : ℕ} (x : α) (u : Fin (m + 6) → α) :
    vecCons x u 6 = vecHead (vecTail (vecTail (vecTail (vecTail (vecTail u))))) := rfl

theorem cons_val_seven {α : Type} {m : ℕ} (x : α) (u : Fin (m + 7) → α) :
    vecCons x u 7 =
      vecHead (vecTail (vecTail (vecTail (vecTail (vecTail (vecTail u)))))) := rfl

theorem mulVec4_apply {m : ℕ} (M : Matrix (Fin m) (Fin 4) ℚ) (v : Fin 4 → ℚ)
    (i : Fin m) :
    M.mulVec v i = M i 0 * v 0 + M i 1 * v 1 + M i 2 * v 2 + M i 3 * v 3 := by
  simp [Matrix.mulVec, Matrix.dotProduct, Fin.sum_univ_four]

theorem mulVec3_apply {m : ℕ} (M : Matrix (Fin m) (Fin 3) ℚ) (v : Fin 3 → ℚ)
    (i : Fin m) :
    M.mulVec v i = M i 0 * v 0 + M i 1 * v 1 + M i 2 * v 2 := by
  simp [Matrix.mulVec, Matrix.dotProduct, Fin.sum_univ_three]

theorem matInv_mulVec_cancel {k : ℕ} (M : Matrix (Fin k) (Fin k) ℚ)
    (hdet : M.det ≠ 0) (w : Fin k → ℚ) :
    M.mulVec ((matInv M).mulVec w) = w := by
  rw [matInv, Matrix.smul_mulVec_assoc, Matrix.mulVec_smul, Matrix.mulVec_mulVec,
    Matrix.mul_adjugate, Matrix.smul_mulVec_assoc, Matrix.one_mulVec, smul_smul,
    inv_mul_cancel₀ hdet, one_smul]

theorem mulVec_cancel {k : ℕ} (M : Matrix (Fin k) (Fin k) ℚ) (hdet : M.det ≠ 0)
    {x y : Fin k → ℚ} (h : M.mulVec x = M.mulVec y) : x = y := by
  have hx := congrArg (fun z => (M.adjugate).mulVec z) h
  simp only [Matrix.mulVec_mulVec, Matrix.adjugate_mul] at hx
  simp only [Matrix.smul_mulVec_assoc, Matrix.one_mulVec] at hx
  exact smul_right_injective _ hdet hx

/-- If the system matrix of solve has trivial kernel-relevant rows, i.e. the
two axis points P6 and P7 differ, then A_c annihilates only the zero
parameter vector. -/
theorem Amat_ker (d : ℕ → Pt) (n : ℕ) (v : Fin 4 → ℚ)
    (h67 : d (5+n) ≠ d (6+n)) (hv : (Amat d n).mulVec v = 0) : v = 0 := by
  have e0 : (d (5+n)).cx * v 0 + -(d (5+n)).cy * v 1 + 1 * v 2 + 0 * v 3 = 0 := by
    have := congrFun hv 0; rw [mulVec4_apply] at this; exact this
  have e1 : (d (5+n)).cy * v 0 + (d (5+n)).cx * v 1 + 0 * v 2 + 1 * v 3 = 0 := by
    have := congrFun hv 1; rw [mulVec4_apply] at this; exact this
  have e2 : (d (6+n)).cx * v 0 + -(d (6+n)).cy * v 1 + 1 * v 2 + 0 * v 3 = 0 := by
    have := congrFun hv 2; rw [mulVec4_apply] at this; exact this
  have e3 : (d (6+n)).cy * v 0 + (d (6+n)).cx * v 1 + 0 * v 2 + 1 * v 3 = 0 := by
    have := congrFun hv 3; rw [mulVec4_apply] at this; exact this
  set x6 := (d (5+n)).cx
  set y6 := (d (5+n)).cy
  set x7 := (d (6+n)).cx
  set y7 := (d (6+n)).cy
  have hne : ¬(x6 = x7 ∧ y6 = y7) := by
    intro ⟨hx, hy⟩
    exact h67 (Pt.ext hx hy)
  have hd2 : (x6 - x7) ^ 2 + (y6 - y7) ^ 2 ≠ 0 := by
    rcases not_and_or.mp hne with h | h
    · have : x6 - x7 ≠ 0 := sub_ne_zero.mpr h
      positivity
    · have : y6 - y7 ≠ 0 := sub_ne_zero.mpr h
      positivity
  have h1 : (x6 - x7) * v 0 - (y6 - y7) * v 1 = 0 := by linarith
  have h2 : (y6 - y7) * v 0 + (x6 - x7) * v 1 = 0 := by linarith
  have hv0 : ((x6 - x7) ^ 2 + (y6 - y7) ^ 2) * v 0 = 0 := by
    linear_combination (x6 - x7) * h1 + (y6 - y7) * h2
  have hv1 : ((x6 - x7) ^ 2 + (y6 - y7) ^ 2) * v 1 = 0 := by
    linear_combination (-(y6 - y7)) * h1 + (x6 - x7) * h2
  have hv0' : v 0 = 0 := by
    rcases mul_eq_zero.mp hv0 with h | h
    · exact absurd h hd2
    · exact h
  have hv1' : v 1 = 0 := by
    rcases mul_eq_zero.mp hv1 with h | h
    · exact absurd h hd2
    · exact h
  have hv2 : v 2 = 0 := by rw [hv0', hv1'] at e0; linarith
  have hv3 : v 3 = 0 := by rw [hv0', hv1'] at e1; linarith
  funext i
  fin_cases i
  · exact hv0'
  · exact hv1'
  · exact hv2
  · exact hv3

/-- Whenever P6 and P7 differ, the normal-equations matrix built by solve is
nonsingular, so np.linalg.inv does not raise. -/
theorem det_Nmat_ne_zero (d : ℕ → Pt) (n : ℕ) (h67 : d (5+n) ≠ d (6+n)) :
    (Nmat d n).det ≠ 0 := by
  intro hdet
  obtain ⟨v, hv0, hv⟩ := (Matrix.exists_mulVec_eq_zero_iff_aux).mpr hdet
  apply hv0
  apply Amat_ker d n v h67
  have hq : v ⬝ᵥ ((Nmat d n) *ᵥ v) = ((Amat d n) *ᵥ v) ⬝ᵥ ((Amat d n) *ᵥ v) := by
    rw [Nmat, ← Matrix.mulVec_mulVec, Matrix.dotProduct_mulVec, Matrix.vecMul_transpose]
  rw [hv, Matrix.dotProduct_zero] at hq
  have hsq : ∀ i, ((Amat d n) *ᵥ v) i * ((Amat d n) *ᵥ v) i = 0 := by
    have hnn : ∀ i ∈ Finset.univ, 0 ≤ ((Amat d n) *ᵥ v) i * ((Amat d n) *ᵥ v) i :=
      fun i _ => mul_self_nonneg _
    intro i
    exact (Finset.sum_eq_zero_iff_of_nonneg hnn).mp hq.symm i (Finset.mem_univ i)
  funext i
  exact mul_self_eq_zero.mp (hsq i)

/-- The value computed at line 174 satisfies the normal equations. -/
theorem normalEq (d : ℕ → Pt) (n : ℕ) (hdet : (Nmat d n).det ≠ 0) :
    (Nmat d n).mulVec (solCoeffs d n) = ATb d n :=
  matInv_mulVec_cancel _ hdet _

/-- The witness input dEx has distinct axis points P6 and P7. -/
theorem dEx_ne : dEx 5 ≠ dEx 6 := by
  norm_num [dEx, Pt.mk.injEq]

/-- The witness input dEx yields a nonsingular normal-equations matrix. -/
theorem dEx_det_ne_zero : (Nmat dEx 0).det ≠ 0 :=
  det_Nmat_ne_zero dEx 0 (by simpa using dEx_ne)

set_option maxHeartbeats 1000000 in
/-- Rotating every landmark by (c, s) about (ccx, ccy) multiplies the system
matrix on the right by the parameter change-of-variables Gmat. -/
theorem Amat_rot (d : ℕ → Pt) (n : ℕ) (c s ccx ccy : ℚ) :
    Amat (rotD c s ccx ccy d) n = Amat d n * Gmat c s ccx ccy := by
  ext i j
  fin_cases i <;> fin_cases j <;>
    simp [Amat, Gmat, rotD, rotPt, Matrix.mul_apply, Fin.sum_univ_four,
      cons_val_five, cons_val_six, cons_val_seven] <;>
    first
      | ring1
      | rfl

set_option maxHeartbeats 1000000 in
/-- For a unit direction (c, s), Gmat of the opposite angle is a right
inverse of Gmat. -/
theorem Gmat_mul_inv (c s ccx ccy : ℚ) (hc : c ^ 2 + s ^ 2 = 1) :
    Gmat c s ccx ccy * Gmat c (-s) ccx ccy = 1 := by
  ext i j
  fin_cases i <;> fin_cases j <;>
    simp [Gmat, Matrix.mul_apply, Fin.sum_univ_four, Matrix.one_apply] <;>
    first
      | ring1
      | linear_combination hc
      | linear_combination ccx * hc
      | linear_combination (-ccx) * hc
      | linear_combination ccy * hc
      | linear_combination (-ccy) * hc

theorem Amat_mulVec_at0 (d : ℕ → Pt) (n : ℕ) (u : Fin 4 → ℚ) :
    (Amat d n).mulVec u 0
      = (d (5+n)).cx * u 0 + -(d (5+n)).cy * u 1 + 1 * u 2 + 0 * u 3 := by
  rw [mulVec4_apply]; rfl

theorem Amat_mulVec_at1 (d : ℕ → Pt) (n : ℕ) (u : Fin 4 → ℚ) :
    (Amat d n).mulVec u 1
      = (d (5+n)).cy * u 0 + (d (5+n)).cx * u 1 + 0 * u 2 + 1 * u 3 := by
  rw [mulVec4_apply]; rfl

theorem Amat_mulVec_at2 (d : ℕ → Pt) (n : ℕ) (u : Fin 4 → ℚ) :
    (Amat d n).mulVec u 2
      = (d (6+n)).cx * u 0 + -(d (6+n)).cy * u 1 + 1 * u 2 + 0 * u 3 := by
  rw [mulVec4_apply]; rfl

theorem Amat_mulVec_at3 (d : ℕ → Pt) (n : ℕ) (u : Fin 4 → ℚ) :
    (Amat d n).mulVec u 3
      = (d (6+n)).cy * u 0 + (d (6+n)).cx * u 1 + 0 * u 2 + 1 * u 3 := by
  rw [mulVec4_apply]; rfl

theorem Amat_mulVec_at4 (d : ℕ → Pt) (n : ℕ) (u : Fin 4 → ℚ) :
    (Amat d n).mulVec u 4
      = ((d (0+n)).cx + (d (4+n)).cx) * u 0
        + -((d (0+n)).cy + (d (4+n)).cy) * u 1 + 2 * u 2 + 0 * u 3 := by
  rw [mulVec4_apply]; rfl

theorem Amat_mulVec_at5 (d : ℕ → Pt) (n : ℕ) (u : Fin 4 → ℚ) :
    (Amat d n).mulVec u 5
      = ((d (1+n)).cx + (d (3+n)).cx) * u 0
        + -((d (1+n)).cy + (d (3+n)).cy) * u 1 + 2 * u 2 + 0 * u 3 := by
  rw [mulVec4_apply]; rfl

theorem Amat_mulVec_at6 (d : ℕ → Pt) (n : ℕ) (u : Fin 4 → ℚ) :
    (Amat d n).mulVec u 6
      = ((d (0+n)).cy - (d (4+n)).cy) * u 0
        + ((d (0+n)).cx - (d (4+n)).cx) * u 1 + 0 * u 2 + 0 * u 3 := by
  rw [mulVec4_apply]; rfl

theorem Amat_mulVec_at7 (d : ℕ → Pt) (n : ℕ) (u : Fin 4 → ℚ) :
    (Amat d n).mulVec u 7
      = ((d (1+n)).cy - (d (3+n)).cy) * u 0
        + ((d (1+n)).cx - (d (3+n)).cx) * u 1 + 0 * u 2 + 0 * u 3 := by
  rw [mulVec4_apply]; rfl

theorem fwd_at0 (u : Fin 4 → ℚ) (p : Pt) :
    fwd u p 0 = u 0 * p.cx + -(u 1) * p.cy + u 2 * 1 := by
  unfold fwd; rw [mulVec3_apply]; rfl

theorem fwd_at1 (u : Fin 4 → ℚ) (p : Pt) :
    fwd u p 1 = u 1 * p.cx + u 0 * p.cy + u 3 * 1 := by
  unfold fwd; rw [mulVec3_apply]; rfl

/-- C1: solve builds an 8-row, 4-unknown linear system in u = (a, b, tx, ty):
rows 0-1 state that the transform maps P6 to (1/2, 1), rows 2-3 that it maps
P7 to (1/2, 0), and the last two rows force the transformed y-coordinates
within the anchor pairs (P1, P5) and (P2, P4) to be equal with zero
right-hand side; the returned parameters are the ordinary-least-squares
solution u = (AᵀA)⁻¹·Aᵀ·v of that system: they satisfy the normal equations,
they minimize the squared residual over all parameter vectors, and solve
returns exactly their reassembly into the similarity matrix. -/
theorem C1_solve_ols_system (d : ℕ → Pt) (n : ℕ)
    (hdet : (Nmat d n).det ≠ 0) :
    (∀ u : Fin 4 → ℚ,
      ((Amat d n).mulVec u 0 = bvec 0 ↔ fwd u (d (5+n)) 0 = 1/2)
      ∧ ((Amat d n).mulVec u 1 = bvec 1 ↔ fwd u (d (5+n)) 1 = 1)
      ∧ ((Amat d n).mulVec u 2 = bvec 2 ↔ fwd u (d (6+n)) 0 = 1/2)
      ∧ ((Amat d n).mulVec u 3 = bvec 3 ↔ fwd u (d (6+n)) 1 = 0)
      ∧ ((Amat d n).mulVec u 6 = bvec 6 ↔ fwd u (d (0+n)) 1 = fwd u (d (4+n)) 1)
      ∧ ((Amat d n).mulVec u 7 = bvec 7 ↔ fwd u (d (1+n)) 1 = fwd u (d (3+n)) 1)
      ∧ bvec 6 = 0 ∧ bvec 7 = 0)
    ∧ (Nmat d n).mulVec (solCoeffs d n) = ATb d n
    ∧ (∀ u : Fin 4 → ℚ,
        ((Amat d n).mulVec (solCoeffs d n) - bvec) ⬝ᵥ
            ((Amat d n).mulVec (solCoeffs d n) - bvec)
          ≤ ((Amat d n).mulVec u - bvec) ⬝ᵥ ((Amat d n).mulVec u - bvec))
    ∧ solve d n = Except.ok (toMat (solCoeffs d n)) := by
  have hnormal := normalEq d n hdet
  refine ⟨fun u => ?_, hnormal, ?_, ?_⟩
  · have h0 : (Amat d n).mulVec u 0 = fwd u (d (5+n)) 0 := by
      rw [Amat_mulVec_at0, fwd_at0]; ring
    have h1 : (Amat d n).mulVec u 1 = fwd u (d (5+n)) 1 := by
      rw [Amat_mulVec_at1, fwd_at1]; ring
    have h2 : (Amat d n).mulVec u 2 = fwd u (d (6+n)) 0 := by
      rw [Amat_mulVec_at2, fwd_at0]; ring
    have h3 : (Amat d n).mulVec u 3 = fwd u (d (6+n)) 1 := by
      rw [Amat_mulVec_at3, fwd_at1]; ring
    have h6 : (Amat d n).mulVec u 6 = fwd u (d (0+n)) 1 - fwd u (d (4+n)) 1 := by
      rw [Amat_mulVec_at6, fwd_at1, fwd_at1]; ring
    have h7 : (Amat d n).mulVec u 7 = fwd u (d (1+n)) 1 - fwd u (d (3+n)) 1 := by
      rw [Amat_mulVec_at7, fwd_at1, fwd_at1]; ring
    refine ⟨?_, ?_, ?_, ?_, ?_, ?_, rfl, rfl⟩
    · rw [h0, show bvec 0 = (1/2 : ℚ) from rfl]
    · rw [h1, show bvec 1 = (1 : ℚ) from rfl]
    · rw [h2, show bvec 2 = (1/2 : ℚ) from rfl]
    · rw [h3, show bvec 3 = (0 : ℚ) from rfl]
    · rw [h6, show bvec 6 = (0 : ℚ) from rfl]; exact sub_eq_zero
    · rw [h7, show bvec 7 = (0 : ℚ) from rfl]; exact sub_eq_zero
  · intro u
    have horth : (Amat d n)ᵀ.mulVec ((Amat d n).mulVec (solCoeffs d n) - bvec) = 0 := by
      rw [Matrix.mulVec_sub, Matrix.mulVec_mulVec]
      rw [show (Amat d n)ᵀ * Amat d n = Nmat d n from rfl, hnormal]
      rw [show (Amat d n)ᵀ.mulVec bvec = ATb d n from rfl, sub_self]
    have hdecomp : (Amat d n).mulVec u - bvec
        = ((Amat d n).mulVec (solCoeffs d n) - bvec)
          + (Amat d n).mulVec (u - solCoeffs d n) := by
      rw [Matrix.mulVec_sub]
      abel
    rw [hdecomp, Matrix.add_dotProduct, Matrix.dotProduct_add, Matrix.dotProduct_add]
    have hx : ((Amat d n).mulVec (solCoeffs d n) - bvec) ⬝ᵥ
        (Amat d n).mulVec (u - solCoeffs d n) = 0 := by
      rw [Matrix.dotProduct_mulVec, ← Matrix.mulVec_transpose, horth,
        Matrix.zero_dotProduct]
    have hy : (Amat d n).mulVec (u - solCoeffs d n) ⬝ᵥ
        ((Amat d n).mulVec (solCoeffs d n) - bvec) = 0 := by
      rw [Matrix.dotProduct_comm]; exact hx
    have hz : 0 ≤ (Amat d n).mulVec (u - solCoeffs d n) ⬝ᵥ
        (Amat d n).mulVec (u - solCoeffs d n) := by
      simp only [Matrix.dotProduct]
      exact Finset.sum_nonneg fun i _ => mul_self_nonneg _
    linarith
  · simp only [solve, if_neg hdet]

/-- Witness for C1: at the concrete input dEx the hypothesis holds and the
normal equations and the returned value are as stated. -/
theorem C1_solve_ols_system_witness :
    (Nmat dEx 0).det ≠ 0
    ∧ (Nmat dEx 0).mulVec (solCoeffs dEx 0) = ATb dEx 0
    ∧ solve dEx 0 = Except.ok (toMat (solCoeffs dEx 0)) :=
  ⟨dEx_det_ne_zero, (C1_solve_ols_system dEx 0 dEx_det_ne_zero).2.1,
    (C1_solve_ols_system dEx 0 dEx_det_ne_zero).2.2.2⟩

/-- C6: whenever solve succeeds, the returned 3x3 matrix has the restricted
similarity form: entry (1,1) equals entry (0,0), entry (1,0) is the negation
of entry (0,1), the bottom row is (0, 0, 1), and the matrix is exactly the
reassembly of the least-squares coefficient vector. -/
theorem C6_similarity_form (d : ℕ → Pt) (n : ℕ) (M : Matrix (Fin 3) (Fin 3) ℚ)
    (h : solve d n = Except.ok M) :
    M 1 1 = M 0 0 ∧ M 1 0 = -(M 0 1) ∧ M 2 0 = 0 ∧ M 2 1 = 0 ∧ M 2 2 = 1
    ∧ M = toMat (solCoeffs d n) := by
  have hM : M = toMat (solCoeffs d n) := by
    by_cases hdet : (Nmat d n).det = 0
    · simp [solve, hdet] at h
    · simp only [solve, if_neg hdet, Except.ok.injEq] at h
      exact h.symm
  subst hM
  refine ⟨rfl, ?_, rfl, rfl, rfl, rfl⟩
  exact (neg_neg _).symm

/-- Witness for C6: the concrete input dEx satisfies the hypothesis and the
returned matrix has the similarity form. -/
theorem C6_similarity_form_witness :
    toMat (solCoeffs dEx 0) 1 1 = toMat (solCoeffs dEx 0) 0 0
    ∧ toMat (solCoeffs dEx 0) 1 0 = -(toMat (solCoeffs dEx 0) 0 1)
    ∧ toMat (solCoeffs dEx 0) 2 0 = 0 ∧ toMat (solCoeffs dEx 0) 2 1 = 0
    ∧ toMat (solCoeffs dEx 0) 2 2 = 1
    ∧ toMat (solCoeffs dEx 0) = toMat (solCoeffs dEx 0) :=
  C6_similarity_form dEx 0 _ (by simp only [solve, if_neg dEx_det_ne_zero])

/-- C3 (amended): the midpoint rows constrain the midpoints of (P1, P5) and
of (P2, P4) to map to canonical x-coordinate 1/2, not 1: each row equals
twice the midpoint's transformed x-coordinate, the right-hand side is 1, and
the row is satisfied exactly when the midpoint is mapped to x = 1/2. -/
theorem C3_midpoint_rows (d : ℕ → Pt) (n : ℕ) (u : Fin 4 → ℚ) :
    (Amat d n).mulVec u 4 = 2 * fwd u (midPt (d (0+n)) (d (4+n))) 0
    ∧ (Amat d n).mulVec u 5 = 2 * fwd u (midPt (d (1+n)) (d (3+n))) 0
    ∧ bvec 4 = 1 ∧ bvec 5 = 1
    ∧ ((Amat d n).mulVec u 4 = bvec 4 ↔ fwd u (midPt (d (0+n)) (d (4+n))) 0 = 1/2)
    ∧ ((Amat d n).mulVec u 5 = bvec 5 ↔ fwd u (midPt (d (1+n)) (d (3+n))) 0 = 1/2) := by
  have h4 : (Amat d n).mulVec u 4 = 2 * fwd u (midPt (d (0+n)) (d (4+n))) 0 := by
    rw [Amat_mulVec_at4, fwd_at0]
    simp only [midPt]
    ring
  have h5 : (Amat d n).mulVec u 5 = 2 * fwd u (midPt (d (1+n)) (d (3+n))) 0 := by
    rw [Amat_mulVec_at5, fwd_at0]
    simp only [midPt]
    ring
  refine ⟨h4, h5, rfl, rfl, ?_, ?_⟩
  · rw [h4, show bvec 4 = (1 : ℚ) from rfl]
    constructor <;> intro hh <;> linarith
  · rw [h5, show bvec 5 = (1 : ℚ) from rfl]
    constructor <;> intro hh <;> linarith

/-- C3 counterexample: with P1 = (1, 0), P5 = (0, 0) and identity parameters
the (P1+P5) midpoint row of the system is satisfied, yet the midpoint of P1
and P5 is mapped to x-coordinate 1/2, which is not 1 — so the row does not
constrain the midpoint to map to canonical x-coordinate 1. -/
theorem C3_counterexample :
    (Amat dC3 0).mulVec uId 4 = bvec 4
    ∧ fwd uId (midPt (dC3 0) (dC3 4)) 0 = 1/2
    ∧ fwd uId (midPt (dC3 0) (dC3 4)) 0 ≠ 1 := by
  refine ⟨?_, ?_, ?_⟩
  · rw [Amat_mulVec_at4, show bvec 4 = (1 : ℚ) from rfl]
    norm_num [dC3, uId]
  · rw [fwd_at0]
    norm_num [dC3, uId, midPt]
  · rw [fwd_at0]
    norm_num [dC3, uId, midPt]

/-- C4 (amended): solve fails only when the normal-equations matrix is
exactly singular, and that never happens while the two axis points P6 and P7
are distinct: in that case solve succeeds regardless of duplications or
collinearity among the other landmark points. -/
theorem C4_axis_distinct_solves (d : ℕ → Pt) (n : ℕ)
    (h67 : d (5+n) ≠ d (6+n)) :
    (Nmat d n).det ≠ 0 ∧ solve d n = Except.ok (toMat (solCoeffs d n)) := by
  have hdet := det_Nmat_ne_zero d n h67
  exact ⟨hdet, by simp only [solve, if_neg hdet]⟩

/-- Witness for C4 at the concrete input dEx. -/
theorem C4_axis_distinct_solves_witness :
    (Nmat dEx 0).det ≠ 0
    ∧ solve dEx 0 = Except.ok (toMat (solCoeffs dEx 0)) :=
  C4_axis_distinct_solves dEx 0 (by simpa using dEx_ne)

/-- C4 counterexample: the input dDup has three coincident landmark points
(P1 = P2 = P3), yet solve succeeds and returns a matrix, raising no error at
all; and on the fully degenerate input dZero, where every landmark point
coincides, the failure is numpy's LinAlgError, which is not a
DegenerateGeometryError (no such error exists in the code). -/
theorem C4_counterexample :
    dDup 0 = dDup 1 ∧ dDup 1 = dDup 2
    ∧ solve dDup 0 = Except.ok (toMat (solCoeffs dDup 0))
    ∧ solve dZero 0 = Except.error GeomError.linAlgError
    ∧ GeomError.linAlgError ≠ GeomError.degenerateGeometryError := by
  refine ⟨by norm_num [dDup], by norm_num [dDup], ?_, ?_, by simp⟩
  · have h56 : dDup 5 ≠ dDup 6 := by
      norm_num [dDup, Pt.mk.injEq]
    have hdet := det_Nmat_ne_zero dDup 0 (by simpa using h56)
    simp only [solve, if_neg hdet]
  · have hcol : ∀ i, (Nmat dZero 0) i 0 = 0 := by
      intro i
      rw [Nmat, Matrix.mul_apply]
      apply Finset.sum_eq_zero
      intro k _
      have hk : Amat dZero 0 k 0 = 0 := by
        fin_cases k <;>
          norm_num [Amat, dZero, cons_val_five, cons_val_six, cons_val_seven]
      rw [Matrix.transpose_apply, hk, mul_zero]
    have hdet0 : (Nmat dZero 0).det = 0 :=
      Matrix.det_eq_zero_of_column_eq_zero 0 hcol
    simp only [solve, if_pos hdet0]

/-- For an invertible similarity-form transform, the first squared edge norm
computed by the rasterizer is automatically nonzero. -/
theorem nAB_ne_zero (u : Fin 4 → ℚ) (hdet : (toMat u).det ≠ 0) :
    nAB (toMat u) ≠ 0 := by
  intro h0
  have hB : (toMat u).mulVec (cornerB (toMat u)) = ![1, 0, 1] :=
    matInv_mulVec_cancel _ hdet _
  have hA : (toMat u).mulVec (cornerA (toMat u)) = ![0, 0, 1] :=
    matInv_mulVec_cancel _ hdet _
  have hAB : (toMat u).mulVec (cornerB (toMat u) - cornerA (toMat u)) = ![1, 0, 0] := by
    rw [Matrix.mulVec_sub, hB, hA]
    funext i
    fin_cases i <;> norm_num
  have he0 : cornerB (toMat u) 0 - cornerA (toMat u) 0 = 0 := by
    rw [nAB] at h0
    nlinarith [sq_nonneg (cornerB (toMat u) 0 - cornerA (toMat u) 0),
      sq_nonneg (cornerB (toMat u) 1 - cornerA (toMat u) 1)]
  have he1 : cornerB (toMat u) 1 - cornerA (toMat u) 1 = 0 := by
    rw [nAB] at h0
    nlinarith [sq_nonneg (cornerB (toMat u) 0 - cornerA (toMat u) 0),
      sq_nonneg (cornerB (toMat u) 1 - cornerA (toMat u) 1)]
  have h2 : cornerB (toMat u) 2 - cornerA (toMat u) 2 = 0 := by
    have hh := congrFun hAB 2
    rw [mulVec3_apply] at hh
    simpa [toMat, Matrix.sub_apply] using hh
  have hr0 : u 0 * (cornerB (toMat u) 0 - cornerA (toMat u) 0)
      + -(u 1) * (cornerB (toMat u) 1 - cornerA (toMat u) 1)
      + u 2 * (cornerB (toMat u) 2 - cornerA (toMat u) 2) = 1 := by
    have hh := congrFun hAB 0
    rw [mulVec3_apply] at hh
    simpa [toMat, Matrix.sub_apply] using hh
  rw [he0, he1, h2] at hr0
  norm_num at hr0

/-- For an invertible similarity-form transform, the second squared edge norm
computed by the rasterizer is automatically nonzero. -/
theorem nAD_ne_zero (u : Fin 4 → ℚ) (hdet : (toMat u).det ≠ 0) :
    nAD (toMat u) ≠ 0 := by
  intro h0
  have hD : (toMat u).mulVec (cornerD (toMat u)) = ![0, 1, 1] :=
    matInv_mulVec_cancel _ hdet _
  have hA : (toMat u).mulVec (cornerA (toMat u)) = ![0, 0, 1] :=
    matInv_mulVec_cancel _ hdet _
  have hAD : (toMat u).mulVec (cornerD (toMat u) - cornerA (toMat u)) = ![0, 1, 0] := by
    rw [Matrix.mulVec_sub, hD, hA]
    funext i
    fin_cases i <;> norm_num
  have he0 : cornerD (toMat u) 0 - cornerA (toMat u) 0 = 0 := by
    rw [nAD] at h0
    nlinarith [sq_nonneg (cornerD (toMat u) 0 - cornerA (toMat u) 0),
      sq_nonneg (cornerD (toMat u) 1 - cornerA (toMat u) 1)]
  have he1 : cornerD (toMat u) 1 - cornerA (toMat u) 1 = 0 := by
    rw [nAD] at h0
    nlinarith [sq_nonneg (cornerD (toMat u) 0 - cornerA (toMat u) 0),
      sq_nonneg (cornerD (toMat u) 1 - cornerA (toMat u) 1)]
  have h2 : cornerD (toMat u) 2 - cornerA (toMat u) 2 = 0 := by
    have hh := congrFun hAD 2
    rw [mulVec3_apply] at hh
    simpa [toMat, Matrix.sub_apply] using hh
  have hr1 : u 1 * (cornerD (toMat u) 0 - cornerA (toMat u) 0)
      + u 0 * (cornerD (toMat u) 1 - cornerA (toMat u) 1)
      + u 3 * (cornerD (toMat u) 2 - cornerA (toMat u) 2) = 1 := by
    have hh := congrFun hAD 1
    rw [mulVec3_apply] at hh
    simpa [toMat, Matrix.sub_apply] using hh
  rw [he0, he1, h2] at hr1
  norm_num at hr1

/-- C5 (amended): the rasterizer performs no explicit determinant or
edge-norm check; but for every invertible similarity-form transform — the
only kind the solver produces — the squared edge norms n_ab and n_ad are
automatically nonzero and rasterization succeeds, so the only failure mode
is the singular-transform one, raised by np.linalg.inv itself. -/
theorem C5_rasterize_total (u : Fin 4 → ℚ) (h w : ℕ)
    (hdet : (toMat u).det ≠ 0) :
    nAB (toMat u) ≠ 0 ∧ nAD (toMat u) ≠ 0
    ∧ rasterize (toMat u) h w = Except.ok (maskFun (toMat u) h w) :=
  ⟨nAB_ne_zero u hdet, nAD_ne_zero u hdet, by simp only [rasterize, if_neg hdet]⟩

/-- Witness for C5 at the identity parameters. -/
theorem C5_rasterize_total_witness :
    (toMat uId).det ≠ 0
    ∧ (nAB (toMat uId) ≠ 0 ∧ nAD (toMat uId) ≠ 0
        ∧ rasterize (toMat uId) 4 4 = Except.ok (maskFun (toMat uId) 4 4)) :=
  have hdet : (toMat uId).det ≠ 0 := by
    rw [Matrix.det_fin_three]
    norm_num [toMat, uId]
  ⟨hdet, C5_rasterize_total uId 4 4 hdet⟩

/-- C5 counterexample: the code contains no defensive determinant check and
no DegenerateGeometryError: on the exactly singular transform Msing the
failure surfaced is numpy's LinAlgError, a different error; and on the
transform Mtiny with near-zero (but nonzero) determinant 1/1000000 no error
is raised at all — no epsilon guard exists. -/
theorem C5_counterexample :
    rasterize Msing 2 2 = Except.error GeomError.linAlgError
    ∧ GeomError.linAlgError ≠ GeomError.degenerateGeometryError
    ∧ Mtiny.det = 1/1000000
    ∧ rasterize Mtiny 2 2 = Except.ok (maskFun Mtiny 2 2) := by
  have h1 : Msing.det = 0 := by
    rw [Matrix.det_fin_three]
    norm_num [Msing, Matrix.vecHead, Matrix.vecTail]
  have h2 : Mtiny.det = 1/1000000 := by
    rw [Matrix.det_fin_three]
    norm_num [Mtiny, Matrix.vecHead, Matrix.vecTail]
  refine ⟨by simp only [rasterize, if_pos h1], by simp, h2, ?_⟩
  have : Mtiny.det ≠ 0 := by rw [h2]; norm_num
  simp only [rasterize, if_neg this]

/-- C2: for every transform with nonzero determinant and any height h and
width w, rasterization succeeds and produces the h x w grid in which, writing
P for the inverse transform and A, B, D for P applied to (0,0,1), (1,0,1),
(0,1,1), the entry at row i, column j is 1 exactly when the two
projection coefficients dot1 = (AX·AB)/n_ab and dot2 = (AX·AD)/n_ad both lie
in [0, 1] (boundaries included), and 0 otherwise; entries outside the grid
bounds are 0. -/
theorem C2_mask_characterization (M : Matrix (Fin 3) (Fin 3) ℚ) (h w : ℕ)
    (hdet : M.det ≠ 0) :
    ∃ mask : ℕ → ℕ → ℚ, rasterize M h w = Except.ok mask
    ∧ (∀ i j : ℕ, i < h → j < w →
        ((mask i j = 1 ↔
            0 ≤ dotOne M i j ∧ dotOne M i j ≤ 1
            ∧ 0 ≤ dotTwo M i j ∧ dotTwo M i j ≤ 1)
          ∧ (mask i j = 0 ↔
            ¬(0 ≤ dotOne M i j ∧ dotOne M i j ≤ 1
              ∧ 0 ≤ dotTwo M i j ∧ dotTwo M i j ≤ 1))))
    ∧ (∀ i j : ℕ, ¬(i < h ∧ j < w) → mask i j = 0) := by
  refine ⟨maskFun M h w, by simp only [rasterize, if_neg hdet], ?_, ?_⟩
  · intro i j hi hj
    simp only [maskFun]
    rw [if_pos ⟨hi, hj⟩]
    by_cases hc : 0 ≤ dotOne M i j ∧ dotOne M i j ≤ 1
        ∧ 0 ≤ dotTwo M i j ∧ dotTwo M i j ≤ 1
    · rw [if_pos hc]
      exact ⟨iff_of_true rfl hc, iff_of_false (by norm_num) (not_not_intro hc)⟩
    · rw [if_neg hc]
      exact ⟨iff_of_false (by norm_num) hc, iff_of_true rfl hc⟩
  · intro i j hij
    simp only [maskFun]
    rw [if_neg hij]

/-- The identity-parameter transform is invertible. -/
theorem toMatId_det_ne_zero : (toMat uId).det ≠ 0 := by
  rw [Matrix.det_fin_three]
  norm_num [toMat, uId]

/-- Witness for C2 at the identity-parameter transform on a 3 x 3 grid. -/
theorem C2_mask_characterization_witness :
    (toMat uId).det ≠ 0
    ∧ (∃ mask : ℕ → ℕ → ℚ, rasterize (toMat uId) 3 3 = Except.ok mask
      ∧ (∀ i j : ℕ, i < 3 → j < 3 →
          ((mask i j = 1 ↔
              0 ≤ dotOne (toMat uId) i j ∧ dotOne (toMat uId) i j ≤ 1
              ∧ 0 ≤ dotTwo (toMat uId) i j ∧ dotTwo (toMat uId) i j ≤ 1)
            ∧ (mask i j = 0 ↔
              ¬(0 ≤ dotOne (toMat uId) i j ∧ dotOne (toMat uId) i j ≤ 1
                ∧ 0 ≤ dotTwo (toMat uId) i j ∧ dotTwo (toMat uId) i j ≤ 1))))
      ∧ (∀ i j : ℕ, ¬(i < 3 ∧ j < 3) → mask i j = 0)) :=
  ⟨toMatId_det_ne_zero,
    C2_mask_characterization (toMat uId) 3 3 toMatId_det_ne_zero⟩

/-- C7: rotating all landmark points by the angle with cosine c and sine s
(with c² + s² = 1) about an arbitrary center changes the recovered rotation
component of the least-squares parameters by exactly that angle — the pair
(a, b) = s·(cos θ, sin θ) is rotated to (c·a + s·b, c·b − s·a), i.e. θ
becomes θ − φ in the image coordinate frame — and leaves the recovered
squared scale a² + b² unchanged; solve still succeeds on the rotated input. -/
theorem C7_rot_equivariance (d : ℕ → Pt) (n : ℕ) (c s ccx ccy : ℚ)
    (hc : c ^ 2 + s ^ 2 = 1) (hdet : (Nmat d n).det ≠ 0) :
    solCoeffs (rotD c s ccx ccy d) n 0
        = c * solCoeffs d n 0 + s * solCoeffs d n 1
    ∧ solCoeffs (rotD c s ccx ccy d) n 1
        = c * solCoeffs d n 1 - s * solCoeffs d n 0
    ∧ solCoeffs (rotD c s ccx ccy d) n 0 ^ 2
        + solCoeffs (rotD c s ccx ccy d) n 1 ^ 2
        = solCoeffs d n 0 ^ 2 + solCoeffs d n 1 ^ 2
    ∧ solve (rotD c s ccx ccy d) n
        = Except.ok (toMat (solCoeffs (rotD c s ccx ccy d) n)) := by
  have hGGi : Gmat c s ccx ccy * Gmat c (-s) ccx ccy = 1 :=
    Gmat_mul_inv c s ccx ccy hc
  have hdetG : (Gmat c s ccx ccy).det ≠ 0 := by
    intro h0
    have hd := congrArg Matrix.det hGGi
    rw [Matrix.det_mul, h0, Matrix.det_one, zero_mul] at hd
    norm_num at hd
  have hA : Amat (rotD c s ccx ccy d) n = Amat d n * Gmat c s ccx ccy :=
    Amat_rot d n c s ccx ccy
  have hN : Nmat (rotD c s ccx ccy d) n
      = (Gmat c s ccx ccy)ᵀ * Nmat d n * Gmat c s ccx ccy := by
    simp only [Nmat]
    rw [hA, Matrix.transpose_mul,
      Matrix.mul_assoc ((Gmat c s ccx ccy)ᵀ) ((Amat d n)ᵀ)
        (Amat d n * Gmat c s ccx ccy),
      ← Matrix.mul_assoc ((Amat d n)ᵀ) (Amat d n) (Gmat c s ccx ccy),
      ← Matrix.mul_assoc ((Gmat c s ccx ccy)ᵀ) ((Amat d n)ᵀ * Amat d n)
        (Gmat c s ccx ccy)]
  have hrhs : ATb (rotD c s ccx ccy d) n
      = (Gmat c s ccx ccy)ᵀ.mulVec (ATb d n) := by
    simp only [ATb]
    rw [hA, Matrix.transpose_mul, Matrix.mulVec_mulVec]
  have hdetQ : (Nmat (rotD c s ccx ccy d) n).det ≠ 0 := by
    rw [hN, Matrix.det_mul, Matrix.det_mul, Matrix.det_transpose]
    exact mul_ne_zero (mul_ne_zero hdetG hdet) hdetG
  have hkey : (Nmat (rotD c s ccx ccy d) n).mulVec
      ((Gmat c (-s) ccx ccy).mulVec (solCoeffs d n))
      = ATb (rotD c s ccx ccy d) n := by
    rw [hN, hrhs]
    rw [Matrix.mulVec_mulVec, Matrix.mul_assoc, Matrix.mul_assoc, hGGi, mul_one,
      ← Matrix.mulVec_mulVec, normalEq d n hdet]
  have hsol : solCoeffs (rotD c s ccx ccy d) n
      = (Gmat c (-s) ccx ccy).mulVec (solCoeffs d n) := by
    apply mulVec_cancel _ hdetQ
    rw [normalEq _ n hdetQ, hkey]
  have h0 := congrFun hsol 0
  have h1 := congrFun hsol 1
  rw [mulVec4_apply,
    show Gmat c (-s) ccx ccy 0 0 = c from rfl,
    show Gmat c (-s) ccx ccy 0 1 = -(-s) from rfl,
    show Gmat c (-s) ccx ccy 0 2 = 0 from rfl,
    show Gmat c (-s) ccx ccy 0 3 = 0 from rfl] at h0
  rw [mulVec4_apply,
    show Gmat c (-s) ccx ccy 1 0 = -s from rfl,
    show Gmat c (-s) ccx ccy 1 1 = c from rfl,
    show Gmat c (-s) ccx ccy 1 2 = 0 from rfl,
    show Gmat c (-s) ccx ccy 1 3 = 0 from rfl] at h1
  have ha : solCoeffs (rotD c s ccx ccy d) n 0
      = c * solCoeffs d n 0 + s * solCoeffs d n 1 := by rw [h0]; ring
  have hb : solCoeffs (rotD c s ccx ccy d) n 1
      = c * solCoeffs d n 1 - s * solCoeffs d n 0 := by rw [h1]; ring
  refine ⟨ha, hb, ?_, by simp only [solve, if_neg hdetQ]⟩
  rw [ha, hb]
  linear_combination (solCoeffs d n 0 ^ 2 + solCoeffs d n 1 ^ 2) * hc

/-- Witness for C7: a concrete 3-4-5 rotation about (1, 2) applied to dEx. -/
theorem C7_rot_equivariance_witness :
    ((3/5 : ℚ) ^ 2 + (4/5 : ℚ) ^ 2 = 1) ∧ (Nmat dEx 0).det ≠ 0
    ∧ solCoeffs (rotD (3/5) (4/5) 1 2 dEx) 0 0
        = 3/5 * solCoeffs dEx 0 0 + 4/5 * solCoeffs dEx 0 1
    ∧ solCoeffs (rotD (3/5) (4/5) 1 2 dEx) 0 1
        = 3/5 * solCoeffs dEx 0 1 - 4/5 * solCoeffs dEx 0 0
    ∧ solCoeffs (rotD (3/5) (4/5) 1 2 dEx) 0 0 ^ 2
        + solCoeffs (rotD (3/5) (4/5) 1 2 dEx) 0 1 ^ 2
        = solCoeffs dEx 0 0 ^ 2 + solCoeffs dEx 0 1 ^ 2 :=
  have hc : (3/5 : ℚ) ^ 2 + (4/5 : ℚ) ^ 2 = 1 := by norm_num
  have hall := C7_rot_equivariance dEx 0 (3/5) (4/5) 1 2 hc dEx_det_ne_zero
  ⟨hc, dEx_det_ne_zero, hall.1, hall.2.1, hall.2.2.1⟩

/-- C8 (code bug): resize_dataset multiplies the landmark x-coordinate cx by
the width proportion w/y and cy by the height proportion h/x, keeping labels
aligned with the resized image; but re_resize_dataset multiplies cx by h/x
and cy by w/y — the two factors are swapped, so its labels are misaligned
whenever h/x differs from w/y.  Evaluated at image shape (x, y) = (200, 100),
target (h, w) = (100, 100), landmark (50, 40): the first pass gives the
aligned (50, 20), the second gives (25, 40) instead of the aligned value. -/
theorem C8_reresize_swaps_axes :
    resizeLandmark 100 100 200 100 ⟨50, 40⟩
        = (⟨50 * (100/100), 40 * (100/200)⟩ : Pt)
    ∧ resizeLandmark 100 100 200 100 ⟨50, 40⟩ = (⟨50, 20⟩ : Pt)
    ∧ reResizeLandmark 100 100 200 100 ⟨50, 40⟩ = (⟨25, 40⟩ : Pt)
    ∧ reResizeLandmark 100 100 200 100 ⟨50, 40⟩
        ≠ (⟨50 * (100/100), 40 * (100/200)⟩ : Pt) := by
  refine ⟨?_, ?_, ?_, ?_⟩ <;>
    norm_num [resizeLandmark, reResizeLandmark, Pt.mk.injEq]

/-- C9 counterexample: a batch with one full 7-row group whose image is a
two-dimensional (grayscale) array — so it has more than a single dimension —
produces no mask at all: the driver requires more than TWO dimensions. -/
theorem C9_counterexample :
    1 < (imgsGray 0).ndim ∧ ¬ 2 < (imgsGray 0).ndim
    ∧ computeMasksDriver dEx imgsGray 7 = [] := by
  refine ⟨by norm_num [imgsGray], by norm_num [imgsGray], ?_⟩
  rfl

/-- C9 (amended): the driver iterates i over range(len//7) with record index
i*7 and processes exactly the groups whose image array has more than two
dimensions (a two-dimensional grayscale image is skipped, even though it has
more than a single dimension); each processed group is keyed by its record
index and carries the solver output piped into the rasterizer at the image's
dimensions. -/
theorem C9_driver_membership (d : ℕ → Pt) (imgs : ℕ → ImgInfo)
    (numRecords : ℕ) (i : ℕ) (r : Except GeomError (ℕ → ℕ → ℚ)) :
    (i * 7, r) ∈ computeMasksDriver d imgs numRecords
      ↔ i < numRecords / 7 ∧ 2 < (imgs (i * 7)).ndim
        ∧ r = (solve d (i * 7)).bind
            (fun M => rasterize M (imgs (i * 7)).hgt (imgs (i * 7)).wdt) := by
  simp only [computeMasksDriver, List.mem_filterMap, List.mem_range]
  constructor
  · rintro ⟨a, ha, hfa⟩
    by_cases h2 : 2 < (imgs (a * 7)).ndim
    · rw [if_pos h2] at hfa
      have hpair := Option.some.inj hfa
      have hkey : a * 7 = i * 7 := congrArg Prod.fst hpair
      have hai : a = i := by omega
      subst hai
      refine ⟨ha, h2, ?_⟩
      exact (congrArg Prod.snd hpair).symm
    · rw [if_neg h2] at hfa
      exact absurd hfa (Option.noConfusion)
  · rintro ⟨hi, h2, hr⟩
    refine ⟨i, hi, ?_⟩
    rw [if_pos h2, hr]

/-- C10: for an annotation table of exactly 7·N rows (N ≥ 1), resize_dataset
iterates the group start indices range(0, 7·N − 7, 7), which is exactly the
multiples of 7 of the first N − 1 groups: the final group's start index
7·(N − 1) is never visited, so the last image is never resized and no label
row is appended for it. -/
theorem C10_resize_skips_last_group (N : ℕ) (hN : 1 ≤ N) :
    resizeIndices (7 * N) = (List.range (N - 1)).map (· * 7)
    ∧ 7 * (N - 1) ∉ resizeIndices (7 * N) := by
  have hcount : (7 * N - 7 + 6) / 7 = N - 1 := by omega
  constructor
  · rw [resizeIndices, hcount]
  · rw [resizeIndices, hcount]
    simp only [List.mem_map, List.mem_range, not_exists]
    rintro a ⟨ha, heq⟩
    omega

/-- Witness for C10 at N = 3: only the first two of the three groups are
visited. -/
theorem C10_resize_skips_last_group_witness :
    1 ≤ 3 ∧ resizeIndices (7 * 3) = (List.range (3 - 1)).map (· * 7)
    ∧ 7 * (3 - 1) ∉ resizeIndices (7 * 3) :=
  ⟨by norm_num, (C10_resize_skips_last_group 3 (by norm_num)).1,
    (C10_resize_skips_last_group 3 (by norm_num)).2⟩
